import Mathlib

/-!
Shallow embedding of the inventory / permissions bookkeeping app
(`src/script.js`): the data model (items, warehouses, permission
documents), the balance aggregator `computeBalances`, the per-item
ledger `getItemCard`, the entity operation `removeItem`, and the
backup export / restore pair.

Modelling conventions:
* JS numbers used as quantities are modelled as `Int`; a line's `qty`
  is `Option Int`, `none` standing for a missing or non-numeric value
  (`Number(line.qty) || 0` becomes `Option.getD · 0`).
* JS strings are `String`; an absent / empty field is `""` (matching
  JS truthiness tests such as `p.date || p.createdAt`).
* `new Date(s)` is modelled by `parseDate : String → Option Nat`,
  which turns a well-formed `YYYY-MM-DD` string into a day serial
  number and anything else (the JS Invalid Date, i.e. `NaN`) into
  `none`; comparisons involving `none` are `false`, exactly as
  relational operators on `NaN` timestamps.
* The JS object used as the balances dictionary is an insertion-order
  association list `BalMap`.
* `Array.prototype.sort` (stable in ECMAScript) is modelled by a
  stable insertion sort over the comparator of `getItemCard`.
-/

/-! ### Data model (`script.js` header comment and seed data) -/

/-- An inventory item: `{id,name,unit,type,group}`. -/
structure Item where
  id : String
  name : String
  unit : String
  type : String
  group : String
deriving DecidableEq

/-- A warehouse / external supplier: `{id,name,desc}`. -/
structure Warehouse where
  id : String
  name : String
  desc : String
deriving DecidableEq

/-- One permission line: `{itemId,unit,qty,desc}`.  `qty` is `none`
when the stored value is missing or not numeric. -/
structure Line where
  itemId : String
  unit : String
  qty : Option Int
  desc : String
deriving DecidableEq

/-- A permission document:
`{id,number,type,store,from,to,date,subNumber,posted,postedAt,lines,createdAt}`.
The JS fields `from` and `to` are keywords in Lean so they are named
`fromW` and `toW` here. -/
structure Perm where
  id : String
  number : String
  type : String
  store : String
  fromW : String
  toW : String
  date : String
  subNumber : String
  posted : Bool
  postedAt : String
  lines : List Line
  createdAt : String
deriving DecidableEq

/-- The in-memory snapshot held in `localStorage`:
`{items, warehouses, permissions}`. -/
structure Store where
  items : List Item
  warehouses : List Warehouse
  permissions : List Perm
deriving DecidableEq

/-! ### `removeItem` (`script.js` lines 81-85) -/

/-- Model of `removeItem(itemId)`: `store.items = store.items.filter(i=>i.id!==itemId)`.
Permission lines referencing the id are untouched. -/
def removeItem (s : Store) (itemId : String) : Store :=
  ⟨s.items.filter (fun i => i.id != itemId), s.warehouses, s.permissions⟩

/-! ### Dates: model of `new Date(string)` comparison semantics -/

/-- Numeric value of a decimal digit character. -/
def digitVal (c : Char) : Nat := c.toNat - '0'.toNat

/-- Gregorian leap year test. -/
def isLeap (y : Nat) : Bool := y % 4 == 0 && (y % 100 != 0 || y % 400 == 0)

/-- Number of days in month `m` of year `y`. -/
def daysInMonth (y m : Nat) : Nat :=
  if m == 2 then (if isLeap y then 29 else 28)
  else if m == 4 || m == 6 || m == 9 || m == 11 then 30
  else 31

/-- Number of leap years in `[0, y)`. -/
def leapsBefore (y : Nat) : Nat :=
  if y == 0 then 0 else 1 + (y - 1) / 4 - (y - 1) / 100 + (y - 1) / 400

/-- Days in year `y` that precede the first day of month `m`. -/
def daysBeforeMonth (y m : Nat) : Nat :=
  (List.range (m - 1)).foldl (fun acc i => acc + daysInMonth y (i + 1)) 0

/-- Day serial number of the calendar date `y-m-d` (days since 0000-01-01). -/
def toSerial (y m d : Nat) : Nat :=
  365 * y + leapsBefore y + daysBeforeMonth y m + (d - 1)

/-- Model of `new Date(s).valueOf()` at day granularity for the
date-only strings the app stores (`YYYY-MM-DD` from date inputs):
a well-formed calendar date yields its day serial, every other string
is an Invalid Date (`NaN`), modelled as `none`. -/
def parseDate (str : String) : Option Nat :=
  match str.toList with
  | [y1, y2, y3, y4, h1, m1, m2, h2, d1, d2] =>
    if (h1 == '-') && (h2 == '-') &&
        ([y1, y2, y3, y4, m1, m2, d1, d2].all Char.isDigit) then
      let y := 1000 * digitVal y1 + 100 * digitVal y2 + 10 * digitVal y3 + digitVal y4
      let mo := 10 * digitVal m1 + digitVal m2
      let d := 10 * digitVal d1 + digitVal d2
      if 1 ≤ mo ∧ mo ≤ 12 ∧ 1 ≤ d ∧ d ≤ daysInMonth y mo then
        some (toSerial y mo d)
      else none
    else none
  | _ => none

/-- Comparison `a < b` on two `new Date(…)` values: `false` whenever
either side is `NaN`. -/
def jsDateLt (a b : Option Nat) : Bool :=
  match a, b with
  | some x, some y => decide (x < y)
  | _, _ => false

/-- Comparison `a > b` on two `new Date(…)` values. -/
def jsDateGt (a b : Option Nat) : Bool := jsDateLt b a

/-! ### The balances dictionary: insertion-ordered JS object -/

/-- The JS object mapping item ids to numbers. -/
abbrev BalMap := List (String × Int)

/-- Membership test `balances.hasOwnProperty(k)`. -/
def hasKey (m : BalMap) (k : String) : Bool := m.any (fun e => e.1 == k)

/-- Lookup `balances[k]` (`none` is `undefined`). -/
def getVal (m : BalMap) (k : String) : Option Int :=
  (m.find? (fun e => e.1 == k)).map (fun e => e.2)

/-- Read `balances[k] || 0`: the number stored at `k`, defaulting to `0`. -/
def valueAt (m : BalMap) (k : String) : Int := (getVal m k).getD 0

/-- Helper for `setVal`: overwrite the entry whose key is `k`. -/
def setEntry (k : String) (v : Int) (e : String × Int) : String × Int :=
  if e.1 == k then (k, v) else e

/-- Assignment `balances[k] = v`: update in place when the key exists, otherwise
append (JS objects preserve string-key insertion order). -/
def setVal (m : BalMap) (k : String) (v : Int) : BalMap :=
  if hasKey m k then m.map (setEntry k v) else m ++ [(k, v)]

/-! ### `computeBalances` (`script.js` lines 122-171) -/

/-- The optional filter argument of `computeBalances`
(`{fromDate, toDate, filterPermType, filterItemId, filterGroup}`);
`""` models an absent (falsy) filter. -/
structure Filters where
  fromDate : String
  toDate : String
  filterPermType : String
  filterItemId : String
  filterGroup : String
deriving DecidableEq

/-- The empty filter record, i.e. `computeBalances()` with no filters. -/
def noFilters : Filters := ⟨"", "", "", "", ""⟩

/-- The permission-level filter of `computeBalances`
(lines 130-135): exact document-type match, then the two date-range
tests, each skipped when its bound is falsy. -/
def permFilter (f : Filters) (p : Perm) : Bool :=
  (f.filterPermType == "" || p.type == f.filterPermType) &&
  (f.fromDate == "" || !(jsDateLt (parseDate p.date) (parseDate f.fromDate))) &&
  (f.toDate == "" || !(jsDateGt (parseDate p.date) (parseDate f.toDate)))

/-- The permissions that participate in the aggregation:
`store.permissions.filter(p => p.posted).filter(…)`. -/
def survivors (s : Store) (f : Filters) : List Perm :=
  (s.permissions.filter (fun p => p.posted)).filter (permFilter f)

/-- Per-line update of the balances object (lines 137-156): ensure the
line's item id is a key, then apply the sign rule switch on the
document type. -/
def applyLine (t : String) (m : BalMap) (l : Line) : BalMap :=
  let m1 := if hasKey m l.itemId then m else setVal m l.itemId 0
  let q : Int := l.qty.getD 0
  if t == "إذن إضافة" then setVal m1 l.itemId (valueAt m1 l.itemId + q)
  else if t == "إذن تحويل" then setVal m1 l.itemId (valueAt m1 l.itemId - q)
  else if t == "إذن خصم معدة" then setVal m1 l.itemId (valueAt m1 l.itemId - q)
  else if t == "إذن صرف" then setVal m1 l.itemId (valueAt m1 l.itemId - q)
  else if t == "إذن ارتجاع" then setVal m1 l.itemId (valueAt m1 l.itemId + q)
  else m1

/-- The loop `p.lines.forEach(line => …)` for one surviving permission. -/
def applyPerm (m : BalMap) (p : Perm) : BalMap :=
  p.lines.foldl (applyLine p.type) m

/-- The seeding loop `store.items.forEach(it => balances[it.id] = 0)`. -/
def initBalances (items : List Item) : BalMap :=
  items.foldl (fun m it => setVal m it.id 0) []

/-- Model of `computeBalances(filters)`: seed every current item with balance
0, accumulate the signed line quantities of every surviving posted
permission, then post-filter the output by `filterItemId` or, failing
that, `filterGroup` (lines 122-171). -/
def computeBalances (s : Store) (f : Filters) : BalMap :=
  let balances := (survivors s f).foldl applyPerm (initBalances s.items)
  if f.filterItemId != "" then
    [(f.filterItemId, valueAt balances f.filterItemId)]
  else if f.filterGroup != "" then
    (s.items.filter (fun it => it.group == f.filterGroup)).foldl
      (fun out it => setVal out it.id (valueAt balances it.id)) []
  else balances

/-! ### `getItemCard` (`script.js` lines 174-207) -/

/-- The fallback `p.date || p.createdAt`: the effective chronological
key string. -/
def effDate (p : Perm) : String := if p.date == "" then p.createdAt else p.date

/-- Numeric sort key `new Date(p.date || p.createdAt)`. -/
def sortKey (p : Perm) : Option Nat := parseDate (effDate p)

/-- Whether `comparator(a,b) <= 0` for the sort comparator
`new Date(a.date||a.createdAt) - new Date(b.date||b.createdAt)`:
an `NaN` difference is treated as `+0` (ECMAScript `SortCompare`),
i.e. as a tie, so only a genuine `>` sends `a` after `b`. -/
def permLe (a b : Perm) : Bool :=
  match sortKey a, sortKey b with
  | some x, some y => decide (x ≤ y)
  | _, _ => true

/-- Stable insertion of one element, keeping `a` before every element
it ties with or precedes. -/
def insertPerm (a : Perm) : List Perm → List Perm
  | [] => [a]
  | b :: bs => if permLe a b then a :: b :: bs else b :: insertPerm a bs

/-- Stable sort modelling `perms.sort(comparator)`. -/
def sortPerms : List Perm → List Perm
  | [] => []
  | a :: as => insertPerm a (sortPerms as)

/-- The inbound test `p.type === 'إذن إضافة' || p.type === 'إذن ارتجاع'`. -/
def isInType (t : String) : Bool := t == "إذن إضافة" || t == "إذن ارتجاع"

/-- One pushed transaction row, before the running balance is
attached.  The JS field `in` is a Lean keyword and is named `inQ`. -/
structure TxRec where
  header : String
  inQ : Int
  out : Int
  desc : String
  permNumber : String
  date : String
deriving DecidableEq

/-- The row pushed for one matching line (lines 188-195). -/
def txOf (p : Perm) (l : Line) : TxRec :=
  let q : Int := l.qty.getD 0
  ⟨p.type, if isInType p.type then q else 0, if isInType p.type then 0 else q,
    l.desc, p.number, effDate p⟩

/-- A ledger row: the transaction together with the running balance. -/
structure CardRow extends TxRec where
  balance : Int
deriving DecidableEq

/-- The result of `getItemCard`. -/
structure ItemCard where
  rows : List CardRow
  balance : Int
deriving DecidableEq

/-- The posted permissions whose lines mention `itemId`
(lines 177-179), in container order. -/
def cardPerms (s : Store) (itemId : String) : List Perm :=
  (s.permissions.filter (fun p => p.posted)).filter
    (fun p => p.lines.any (fun l => l.itemId == itemId))

/-- The transaction rows contributed by one permission: its lines
matching `itemId`, in line order. -/
def permTxs (itemId : String) (p : Perm) : List TxRec :=
  (p.lines.filter (fun l => l.itemId == itemId)).map (txOf p)

/-- Attach the running balance (lines 200-205): `bal += in - out` per
row; returns the rows and the final total. -/
def runBalance (bal : Int) : List TxRec → List CardRow × Int
  | [] => ([], bal)
  | t :: ts =>
    let b := bal + (t.inQ - t.out)
    let r := runBalance b ts
    (⟨t, b⟩ :: r.1, r.2)

/-- Model of `getItemCard(itemId)`: select, sort, expand into rows, attach the
running balance; `balance` is the final total (0 when no rows). -/
def getItemCard (s : Store) (itemId : String) : ItemCard :=
  let txs := (sortPerms (cardPerms s itemId)).flatMap (permTxs itemId)
  let rb := runBalance 0 txs
  ⟨rb.1, rb.2⟩

/-! ### Backup export / restore (`script.js` lines 622-643) -/

/-- A parsed backup payload: `JSON.parse` output with each of the
three containers either present or absent.  The textual
`JSON.stringify` / `JSON.parse` round trip is modelled as the identity
on this structured form. -/
structure BackupPayload where
  items : Option (List Item)
  warehouses : Option (List Warehouse)
  permissions : Option (List Perm)
deriving DecidableEq

/-- Model of `exportBackup()`: serializes the full store; all three containers
are present in the produced payload. -/
def exportBackup (s : Store) : BackupPayload :=
  ⟨some s.items, some s.warehouses, some s.permissions⟩

/-- The `InvalidBackup` message thrown by `importBackupFile`. -/
def invalidBackupMsg : String := "ملف نسخة احتياطية غير صالح"

/-- Model of `importBackupFile`: validate that the three containers are
present; on success replace the store, on failure keep the current
snapshot and report the error message. -/
def importBackupFile (current : Store) (data : BackupPayload) : Store × Option String :=
  match data.items, data.warehouses, data.permissions with
  | some its, some whs, some ps => (⟨its, whs, ps⟩, none)
  | _, _, _ => (current, some invalidBackupMsg)

/-! ### Derived definitions used by the verification -/

/-- The net effect of one line of a document of type `t` on the
balance stored at key `k` (proved below to characterize `applyLine`):
additions and returns add the line quantity, transfers, equipment
deductions and disbursements subtract it, any other type contributes
nothing. -/
def lineDelta (t k : String) (l : Line) : Int :=
  if l.itemId == k then
    if t == "إذن إضافة" then l.qty.getD 0
    else if t == "إذن تحويل" then -(l.qty.getD 0)
    else if t == "إذن خصم معدة" then -(l.qty.getD 0)
    else if t == "إذن صرف" then -(l.qty.getD 0)
    else if t == "إذن ارتجاع" then l.qty.getD 0
    else 0
  else 0

/-- Net contribution of one whole permission to the balance at `k`. -/
def permDelta (k : String) (p : Perm) : Int :=
  (p.lines.map (lineDelta p.type k)).sum

/-! ### Concrete sample data for the closed instance theorems -/

/-- A sample item. -/
def wItemA : Item := ⟨"itA", "مسمار", "قطعة", "مستهلكات", "مكتبي"⟩

/-- A posted addition permission crediting 10 units of `itA`. -/
def wPermAdd : Perm :=
  ⟨"p1", "1", "إذن إضافة", "المخزن الرئيسي", "", "", "2024-01-01", "",
    true, "", [⟨"itA", "قطعة", some 10, ""⟩], "2024-01-01"⟩

/-- A posted disbursement permission debiting 3 units of `itA`. -/
def wPermDisb : Perm :=
  ⟨"p2", "2", "إذن صرف", "المخزن الرئيسي", "", "", "2024-01-05", "",
    true, "", [⟨"itA", "قطعة", some 3, ""⟩], "2024-01-05"⟩

/-- A snapshot with one item and the two permissions above. -/
def wStore : Store := ⟨[wItemA], [], [wPermAdd, wPermDisb]⟩

/-- A posted disbursement dated 2024-03-10. -/
def wPermMar : Perm :=
  ⟨"p3", "3", "إذن صرف", "المخزن الرئيسي", "", "", "2024-03-10", "",
    true, "", [⟨"itA", "قطعة", some 1, ""⟩], "2024-03-10"⟩

/-- A snapshot holding only `wPermMar`. -/
def wStoreMar : Store := ⟨[wItemA], [], [wPermMar]⟩

/-- A date-range filter covering 2024-03-10 … 2024-03-20. -/
def wFiltersMar : Filters := ⟨"2024-03-10", "2024-03-20", "", "", ""⟩

/-- A posted permission of an unknown document type with one line of
quantity 5 for `itA`. -/
def cexPermUnknown : Perm :=
  ⟨"px", "9", "إذن مجهول", "المخزن الرئيسي", "", "", "2024-04-01", "",
    true, "", [⟨"itA", "قطعة", some 5, ""⟩], "2024-04-01"⟩

/-- A snapshot whose only permission has an unknown document type. -/
def cexStoreUnknown : Store := ⟨[wItemA], [], [cexPermUnknown]⟩

/-- Posted addition dated 2024-05-01 (late). -/
def cexPermLate : Perm :=
  ⟨"q1", "11", "إذن إضافة", "المخزن الرئيسي", "", "", "2024-05-01", "",
    true, "", [⟨"itA", "قطعة", some 1, ""⟩], "2024-05-01"⟩

/-- Posted addition whose date string is unparseable. -/
def cexPermBadDate : Perm :=
  ⟨"q2", "12", "إذن إضافة", "المخزن الرئيسي", "", "", "garbage", "",
    true, "", [⟨"itA", "قطعة", some 1, ""⟩], "garbage"⟩

/-- Posted addition dated 2024-01-01 (early). -/
def cexPermEarly : Perm :=
  ⟨"q3", "13", "إذن إضافة", "المخزن الرئيسي", "", "", "2024-01-01", "",
    true, "", [⟨"itA", "قطعة", some 1, ""⟩], "2024-01-01"⟩

/-- A snapshot whose permission container holds a late-dated, an
unparseable-dated and an early-dated posted permission, in that
order. -/
def cexStoreDates : Store := ⟨[wItemA], [], [cexPermLate, cexPermBadDate, cexPermEarly]⟩

/-- A snapshot whose two permissions are stored in anti-chronological
order (2024-02-01 before 2024-01-01). -/
def wStoreTwoDates : Store :=
  ⟨[wItemA], [],
    [⟨"r1", "21", "إذن إضافة", "المخزن الرئيسي", "", "", "2024-02-01", "",
       true, "", [⟨"itA", "قطعة", some 2, ""⟩], "2024-02-01"⟩,
     ⟨"r2", "22", "إذن صرف", "المخزن الرئيسي", "", "", "2024-01-01", "",
       true, "", [⟨"itA", "قطعة", some 1, ""⟩], "2024-01-01"⟩]⟩

/-! ### Lemmas about the balances dictionary -/

theorem getVal_cons (e : String × Int) (m : BalMap) (k : String) :
    getVal (e :: m) k = if e.1 == k then some e.2 else getVal m k := by
  by_cases h : e.1 = k <;> simp [getVal, List.find?_cons, h]

theorem hasKey_cons (e : String × Int) (m : BalMap) (k : String) :
    hasKey (e :: m) k = (e.1 == k || hasKey m k) := by
  simp [hasKey]

theorem getVal_eq_none_of_not_hasKey (m : BalMap) (k : String)
    (h : hasKey m k = false) : getVal m k = none := by
  induction m with
  | nil => rfl
  | cons e es ih =>
    rw [hasKey_cons] at h
    rcases Bool.or_eq_false_iff.mp h with ⟨h1, h2⟩
    rw [getVal_cons, if_neg (by simp_all), ih h2]

theorem getVal_of_hasKey (m : BalMap) (k : String)
    (h : hasKey m k = true) : getVal m k = some (valueAt m k) := by
  induction m with
  | nil => simp [hasKey] at h
  | cons e es ih =>
    by_cases he : e.1 = k
    · simp [valueAt, getVal_cons, he]
    · rw [hasKey_cons] at h
      have h2 : hasKey es k = true := by simp_all
      simp only [valueAt, getVal_cons, if_neg (by simp_all : ¬((e.1 == k) = true))]
      rw [ih h2]; rfl

theorem getVal_map_setEntry_self (m : BalMap) (k : String) (v : Int)
    (h : hasKey m k = true) : getVal (m.map (setEntry k v)) k = some v := by
  induction m with
  | nil => simp [hasKey] at h
  | cons e es ih =>
    by_cases he : e.1 = k
    · simp [setEntry, he, getVal_cons]
    · rw [hasKey_cons] at h
      have h2 : hasKey es k = true := by simp_all
      simp only [List.map_cons, setEntry, if_neg (by simp_all : ¬((e.1 == k) = true))]
      rw [getVal_cons, if_neg (by simp_all), ih h2]

theorem getVal_map_setEntry_ne (m : BalMap) (k : String) (v : Int) (k' : String)
    (h : k' ≠ k) : getVal (m.map (setEntry k v)) k' = getVal m k' := by
  induction m with
  | nil => rfl
  | cons e es ih =>
    by_cases he : e.1 = k
    · have h1 : setEntry k v e = (k, v) := by simp [setEntry, he]
      rw [List.map_cons, h1, getVal_cons, getVal_cons,
        if_neg (by simp [Ne.symm h]), if_neg (by simp [he]; exact Ne.symm h), ih]
    · have h1 : setEntry k v e = e := by simp [setEntry, he]
      rw [List.map_cons, h1, getVal_cons, getVal_cons, ih]

theorem hasKey_map_setEntry (m : BalMap) (k : String) (v : Int) (k' : String)
    (h : k' ≠ k) : hasKey (m.map (setEntry k v)) k' = hasKey m k' := by
  induction m with
  | nil => rfl
  | cons e es ih =>
    by_cases he : e.1 = k
    · have h1 : setEntry k v e = (k, v) := by simp [setEntry, he]
      rw [List.map_cons, h1, hasKey_cons, hasKey_cons, ih]
      have h2 : (k == k') = false := by simp [Ne.symm h]
      have h3 : (e.1 == k') = false := by simp [he]; exact Ne.symm h
      rw [h2, h3]
    · have h1 : setEntry k v e = e := by simp [setEntry, he]
      rw [List.map_cons, h1, hasKey_cons, hasKey_cons, ih]

theorem getVal_setVal_self (m : BalMap) (k : String) (v : Int) :
    getVal (setVal m k v) k = some v := by
  rw [setVal]
  by_cases h : hasKey m k = true
  · rw [if_pos h]; exact getVal_map_setEntry_self m k v h
  · rw [if_neg h]
    induction m with
    | nil => simp [getVal_cons]
    | cons e es ih =>
      rw [hasKey_cons] at h
      have h1 : (e.1 == k) = false := by simp_all
      have h2 : ¬ hasKey es k = true := by simp_all
      rw [List.cons_append, getVal_cons, if_neg (by simp_all), ih h2]

theorem getVal_setVal_ne (m : BalMap) (k : String) (v : Int) (k' : String)
    (h : k' ≠ k) : getVal (setVal m k v) k' = getVal m k' := by
  rw [setVal]
  by_cases hk : hasKey m k = true
  · rw [if_pos hk]; exact getVal_map_setEntry_ne m k v k' h
  · rw [if_neg hk]
    induction m with
    | nil => simp [getVal_cons, getVal, Ne.symm h]
    | cons e es ih =>
      rw [List.cons_append, getVal_cons, getVal_cons]
      by_cases he : e.1 = k'
      · simp [he]
      · rw [if_neg (by simp_all), if_neg (by simp_all)]
        apply ih
        intro hc
        exact hk (by rw [hasKey_cons, hc]; simp)

theorem hasKey_setVal_self (m : BalMap) (k : String) (v : Int) :
    hasKey (setVal m k v) k = true := by
  rw [setVal]
  by_cases h : hasKey m k = true
  · rw [if_pos h]
    induction m with
    | nil => simp [hasKey] at h
    | cons e es ih =>
      by_cases he : e.1 = k
      · have h1 : setEntry k v e = (k, v) := by simp [setEntry, he]
        rw [List.map_cons, h1, hasKey_cons]; simp
      · rw [hasKey_cons] at h
        have h2 : hasKey es k = true := by simp_all
        rw [List.map_cons, hasKey_cons, ih h2]; simp
  · rw [if_neg h, hasKey]
    simp [List.any_append]

theorem hasKey_setVal_ne (m : BalMap) (k : String) (v : Int) (k' : String)
    (h : k' ≠ k) : hasKey (setVal m k v) k' = hasKey m k' := by
  rw [setVal]
  by_cases hk : hasKey m k = true
  · rw [if_pos hk]; exact hasKey_map_setEntry m k v k' h
  · rw [if_neg hk, hasKey, hasKey, List.any_append]
    simp [Ne.symm h]

theorem valueAt_setVal_self (m : BalMap) (k : String) (v : Int) :
    valueAt (setVal m k v) k = v := by
  rw [valueAt, getVal_setVal_self]; rfl

theorem valueAt_setVal_ne (m : BalMap) (k : String) (v : Int) (k' : String)
    (h : k' ≠ k) : valueAt (setVal m k v) k' = valueAt m k' := by
  rw [valueAt, getVal_setVal_ne m k v k' h]; rfl

theorem valueAt_ensure (m : BalMap) (k k' : String) :
    valueAt (if hasKey m k then m else setVal m k 0) k' = valueAt m k' := by
  by_cases h : hasKey m k = true
  · rw [if_pos h]
  · rw [if_neg h]
    by_cases he : k' = k
    · subst he
      rw [valueAt_setVal_self, valueAt,
        getVal_eq_none_of_not_hasKey m k' (by simp_all)]
      rfl
    · exact valueAt_setVal_ne m k 0 k' he

theorem hasKey_ensure (m : BalMap) (k k' : String) :
    hasKey (if hasKey m k then m else setVal m k 0) k' =
      (hasKey m k' || k' == k) := by
  by_cases h : hasKey m k = true
  · rw [if_pos h]
    by_cases he : k' = k
    · subst he; simp [h]
    · simp [he]
  · rw [if_neg h]
    by_cases he : k' = k
    · subst he; simp [hasKey_setVal_self]
    · rw [hasKey_setVal_ne m k 0 k' he]; simp [he]

theorem valueAt_applyLine (t : String) (m : BalMap) (l : Line) (k : String) :
    valueAt (applyLine t m l) k = valueAt m k + lineDelta t k l := by
  rw [applyLine, lineDelta]
  have hens : ∀ k', valueAt (if hasKey m l.itemId then m else setVal m l.itemId 0) k' =
      valueAt m k' := fun k' => valueAt_ensure m l.itemId k'
  set m1 := if hasKey m l.itemId then m else setVal m l.itemId 0 with hm1
  by_cases hk : l.itemId = k
  · subst hk
    rw [if_pos (by simp : (l.itemId == l.itemId) = true)]
    by_cases h1 : t == "إذن إضافة"
    · rw [if_pos h1, if_pos h1, valueAt_setVal_self, hens]
    · rw [if_neg h1, if_neg h1]
      by_cases h2 : t == "إذن تحويل"
      · rw [if_pos h2, if_pos h2, valueAt_setVal_self, hens]; ring
      · rw [if_neg h2, if_neg h2]
        by_cases h3 : t == "إذن خصم معدة"
        · rw [if_pos h3, if_pos h3, valueAt_setVal_self, hens]; ring
        · rw [if_neg h3, if_neg h3]
          by_cases h4 : t == "إذن صرف"
          · rw [if_pos h4, if_pos h4, valueAt_setVal_self, hens]; ring
          · rw [if_neg h4, if_neg h4]
            by_cases h5 : t == "إذن ارتجاع"
            · rw [if_pos h5, if_pos h5, valueAt_setVal_self, hens]
            · rw [if_neg h5, if_neg h5, hens]; ring
  · have hne : (l.itemId == k) = false := by simp [hk]
    rw [hne]
    simp only [Bool.false_eq_true, if_false, add_zero]
    have hset : ∀ v : Int, valueAt (setVal m1 l.itemId v) k = valueAt m k := by
      intro v
      rw [valueAt_setVal_ne m1 l.itemId v k (by exact fun hh => hk hh.symm), hens]
    by_cases h1 : t == "إذن إضافة"
    · rw [if_pos h1, hset]
    · rw [if_neg h1]
      by_cases h2 : t == "إذن تحويل"
      · rw [if_pos h2, hset]
      · rw [if_neg h2]
        by_cases h3 : t == "إذن خصم معدة"
        · rw [if_pos h3, hset]
        · rw [if_neg h3]
          by_cases h4 : t == "إذن صرف"
          · rw [if_pos h4, hset]
          · rw [if_neg h4]
            by_cases h5 : t == "إذن ارتجاع"
            · rw [if_pos h5, hset]
            · rw [if_neg h5, hens]

theorem hasKey_applyLine (t : String) (m : BalMap) (l : Line) (k : String) :
    hasKey (applyLine t m l) k = (hasKey m k || k == l.itemId) := by
  rw [applyLine]
  set m1 := if hasKey m l.itemId then m else setVal m l.itemId 0 with hm1
  have hens : hasKey m1 k = (hasKey m k || k == l.itemId) :=
    hasKey_ensure m l.itemId k
  have hset : ∀ v : Int, hasKey (setVal m1 l.itemId v) k =
      (hasKey m k || k == l.itemId) := by
    intro v
    by_cases he : k = l.itemId
    · subst he; rw [hasKey_setVal_self]; simp
    · rw [hasKey_setVal_ne m1 l.itemId v k he, hens]
  by_cases h1 : t == "إذن إضافة"
  · rw [if_pos h1, hset]
  · rw [if_neg h1]
    by_cases h2 : t == "إذن تحويل"
    · rw [if_pos h2, hset]
    · rw [if_neg h2]
      by_cases h3 : t == "إذن خصم معدة"
      · rw [if_pos h3, hset]
      · rw [if_neg h3]
        by_cases h4 : t == "إذن صرف"
        · rw [if_pos h4, hset]
        · rw [if_neg h4]
          by_cases h5 : t == "إذن ارتجاع"
          · rw [if_pos h5, hset]
          · rw [if_neg h5, hens]

theorem valueAt_foldl_lines (t : String) (k : String) :
    ∀ (lines : List Line) (m : BalMap),
      valueAt (lines.foldl (applyLine t) m) k =
        valueAt m k + (lines.map (lineDelta t k)).sum := by
  intro lines
  induction lines with
  | nil => intro m; simp
  | cons l ls ih =>
    intro m
    rw [List.foldl_cons, ih, valueAt_applyLine]
    simp [add_assoc]

theorem valueAt_applyPerm (m : BalMap) (p : Perm) (k : String) :
    valueAt (applyPerm m p) k = valueAt m k + permDelta k p :=
  valueAt_foldl_lines p.type k p.lines m

theorem valueAt_foldl_perms (k : String) :
    ∀ (perms : List Perm) (m : BalMap),
      valueAt (perms.foldl applyPerm m) k =
        valueAt m k + (perms.map (permDelta k)).sum := by
  intro perms
  induction perms with
  | nil => intro m; simp
  | cons p ps ih =>
    intro m
    rw [List.foldl_cons, ih, valueAt_applyPerm]
    simp [add_assoc]

theorem hasKey_foldl_lines (t : String) (k : String) :
    ∀ (lines : List Line) (m : BalMap),
      hasKey (lines.foldl (applyLine t) m) k =
        (hasKey m k || lines.any (fun l => l.itemId == k)) := by
  intro lines
  induction lines with
  | nil => intro m; simp
  | cons l ls ih =>
    intro m
    rw [List.foldl_cons, ih, hasKey_applyLine, List.any_cons]
    by_cases h : l.itemId = k
    · subst h; simp
    · have h1 : (k == l.itemId) = false := by simp; exact fun hh => h hh.symm
      have h2 : (l.itemId == k) = false := by simp [h]
      rw [h1, h2]
      simp

theorem hasKey_foldl_perms (k : String) :
    ∀ (perms : List Perm) (m : BalMap),
      hasKey (perms.foldl applyPerm m) k =
        (hasKey m k || perms.any (fun p => p.lines.any (fun l => l.itemId == k))) := by
  intro perms
  induction perms with
  | nil => intro m; simp
  | cons p ps ih =>
    intro m
    rw [List.foldl_cons, ih, applyPerm, hasKey_foldl_lines, List.any_cons]
    simp [Bool.or_assoc]

theorem valueAt_initBalances (items : List Item) (k : String) :
    valueAt (initBalances items) k = 0 := by
  rw [initBalances]
  have : ∀ (its : List Item) (m : BalMap), (∀ k', valueAt m k' = 0) →
      valueAt (its.foldl (fun m it => setVal m it.id 0) m) k = 0 := by
    intro its
    induction its with
    | nil => intro m hm; exact hm k
    | cons it its ih =>
      intro m hm
      rw [List.foldl_cons]
      apply ih
      intro k'
      by_cases h : k' = it.id
      · subst h; rw [valueAt_setVal_self]
      · rw [valueAt_setVal_ne _ _ _ _ h]; exact hm k'
  exact this items [] (fun k' => rfl)

theorem hasKey_initBalances (items : List Item) (k : String) :
    hasKey (initBalances items) k = items.any (fun it => it.id == k) := by
  rw [initBalances]
  have : ∀ (its : List Item) (m : BalMap),
      hasKey (its.foldl (fun m it => setVal m it.id 0) m) k =
        (hasKey m k || its.any (fun it => it.id == k)) := by
    intro its
    induction its with
    | nil => intro m; simp
    | cons it its ih =>
      intro m
      rw [List.foldl_cons, ih, List.any_cons]
      by_cases h : k = it.id
      · subst h; rw [hasKey_setVal_self]; simp
      · rw [hasKey_setVal_ne _ _ _ _ h]
        have : (it.id == k) = false := by simp; exact fun hh => h hh.symm
        rw [this]; simp
  rw [this items [], hasKey]; simp

theorem permFilter_noType_noDates (f : Filters) (p : Perm)
    (h1 : f.filterPermType = "") (h2 : f.fromDate = "") (h3 : f.toDate = "") :
    permFilter f p = true := by
  simp [permFilter, h1, h2, h3]

theorem survivors_noFilters (s : Store) (f : Filters)
    (h1 : f.filterPermType = "") (h2 : f.fromDate = "") (h3 : f.toDate = "") :
    survivors s f = s.permissions.filter (fun p => p.posted) := by
  rw [survivors]
  apply List.filter_eq_self.mpr
  intro p _
  exact permFilter_noType_noDates f p h1 h2 h3

theorem computeBalances_noFilters_eq (s : Store) (f : Filters)
    (hi : f.filterItemId = "") (hg : f.filterGroup = "") :
    computeBalances s f = (survivors s f).foldl applyPerm (initBalances s.items) := by
  simp [computeBalances, hi, hg]

/-- C1: `computeBalances` applies the per-document-type sign rule to
every line: addition and return add the line's quantity, transfer,
equipment deduction and disbursement subtract it, any other type
leaves every balance unchanged; and in the two-permission scenario
(one posted addition of qty `Q`, one posted disbursement of qty `R`
for the same item) the unfiltered result maps that item to `Q - R`
and every other current item to `0`. -/
theorem computeBalances_sign_rule :
    (∀ (t : String) (m : BalMap) (l : Line),
      ((t = "إذن إضافة" ∨ t = "إذن ارتجاع") →
        valueAt (applyLine t m l) l.itemId = valueAt m l.itemId + l.qty.getD 0) ∧
      ((t = "إذن تحويل" ∨ t = "إذن خصم معدة" ∨ t = "إذن صرف") →
        valueAt (applyLine t m l) l.itemId = valueAt m l.itemId - l.qty.getD 0) ∧
      (t ∉ (["إذن إضافة", "إذن تحويل", "إذن خصم معدة", "إذن صرف",
            "إذن ارتجاع"] : List String) →
        ∀ k, valueAt (applyLine t m l) k = valueAt m k) ∧
      (∀ k, k ≠ l.itemId → valueAt (applyLine t m l) k = valueAt m k)) ∧
    (∀ (itms : List Item) (whs : List Warehouse) (a : String) (Q R : Int)
      (p1 p2 : Perm) (l1 l2 : Line),
      p1.posted = true → p1.type = "إذن إضافة" → p1.lines = [l1] →
      l1.itemId = a → l1.qty = some Q →
      p2.posted = true → p2.type = "إذن صرف" → p2.lines = [l2] →
      l2.itemId = a → l2.qty = some R →
      getVal (computeBalances ⟨itms, whs, [p1, p2]⟩ noFilters) a = some (Q - R) ∧
      ∀ it ∈ itms, it.id ≠ a →
        getVal (computeBalances ⟨itms, whs, [p1, p2]⟩ noFilters) it.id = some 0) := by
  constructor
  · intro t m l
    refine ⟨?_, ?_, ?_, ?_⟩
    · intro h
      rw [valueAt_applyLine]
      rcases h with h | h <;> subst h <;> simp [lineDelta]
    · intro h
      rw [valueAt_applyLine]
      rcases h with h | h | h <;> subst h <;> simp [lineDelta] <;> ring
    · intro h k
      simp only [List.mem_cons, List.not_mem_nil, or_false] at h
      push_neg at h
      obtain ⟨n1, n2, n3, n4, n5⟩ := h
      rw [valueAt_applyLine, lineDelta]
      have e1 : (t == "إذن إضافة") = false := by simp [n1]
      have e2 : (t == "إذن تحويل") = false := by simp [n2]
      have e3 : (t == "إذن خصم معدة") = false := by simp [n3]
      have e4 : (t == "إذن صرف") = false := by simp [n4]
      have e5 : (t == "إذن ارتجاع") = false := by simp [n5]
      rw [e1, e2, e3, e4, e5]
      simp
    · intro k hk
      rw [valueAt_applyLine, lineDelta]
      have : (l.itemId == k) = false := by simp; exact fun hh => hk hh.symm
      rw [this]
      simp
  · intro itms whs a Q R p1 p2 l1 l2 hpost1 htype1 hlines1 hid1 hq1
      hpost2 htype2 hlines2 hid2 hq2
    have hsurv : survivors ⟨itms, whs, [p1, p2]⟩ noFilters = [p1, p2] := by
      rw [survivors_noFilters _ _ rfl rfl rfl]
      simp [List.filter_cons, hpost1, hpost2]
    have hcb : computeBalances ⟨itms, whs, [p1, p2]⟩ noFilters =
        ([p1, p2]).foldl applyPerm (initBalances itms) := by
      rw [computeBalances_noFilters_eq _ _ rfl rfl, hsurv]
    have hd1 : ∀ k, permDelta k p1 = lineDelta p1.type k l1 := by
      intro k; rw [permDelta, hlines1]; simp
    have hd2 : ∀ k, permDelta k p2 = lineDelta p2.type k l2 := by
      intro k; rw [permDelta, hlines2]; simp
    constructor
    · have hk : hasKey (([p1, p2]).foldl applyPerm (initBalances itms)) a = true := by
        rw [hasKey_foldl_perms]
        apply Bool.or_eq_true_iff.mpr
        right
        apply List.any_eq_true.mpr
        refine ⟨p1, by simp, ?_⟩
        apply List.any_eq_true.mpr
        exact ⟨l1, by simp [hlines1], by simp [hid1]⟩
      have hv : valueAt (([p1, p2]).foldl applyPerm (initBalances itms)) a = Q - R := by
        rw [valueAt_foldl_perms, valueAt_initBalances]
        simp only [List.map_cons, List.map_nil, List.sum_cons, List.sum_nil]
        rw [hd1, hd2, lineDelta, lineDelta, htype1, htype2]
        rw [hid1, hid2, hq1, hq2]
        simp
        ring
      rw [hcb, getVal_of_hasKey _ _ hk, hv]
    · intro it hit hne
      have hk : hasKey (([p1, p2]).foldl applyPerm (initBalances itms)) it.id = true := by
        rw [hasKey_foldl_perms, hasKey_initBalances]
        apply Bool.or_eq_true_iff.mpr
        left
        exact List.any_eq_true.mpr ⟨it, hit, by simp⟩
      have hz1 : lineDelta p1.type it.id l1 = 0 := by
        rw [lineDelta, hid1]
        have : (a == it.id) = false := by simp; exact fun hh => hne hh.symm
        rw [this]; simp
      have hz2 : lineDelta p2.type it.id l2 = 0 := by
        rw [lineDelta, hid2]
        have : (a == it.id) = false := by simp; exact fun hh => hne hh.symm
        rw [this]; simp
      have hv : valueAt (([p1, p2]).foldl applyPerm (initBalances itms)) it.id = 0 := by
        rw [valueAt_foldl_perms, valueAt_initBalances]
        simp only [List.map_cons, List.map_nil, List.sum_cons, List.sum_nil]
        rw [hd1, hd2, hz1, hz2]
        simp
      rw [hcb, getVal_of_hasKey _ _ hk, hv]

theorem computeBalances_itemId (s : Store) (f : Filters)
    (hi : f.filterItemId ≠ "") :
    computeBalances s f =
      [(f.filterItemId,
        valueAt ((survivors s f).foldl applyPerm (initBalances s.items))
          f.filterItemId)] := by
  have h : (f.filterItemId != "") = true := bne_iff_ne.mpr hi
  simp [computeBalances, h]

/-- C4: when `filterItemId` is non-empty, `computeBalances` ignores
`filterGroup` entirely and returns the single-entry mapping keyed by
`filterItemId`. -/
theorem filterItemId_overrides_filterGroup (s : Store)
    (fd td tp i g : String) (hi : i ≠ "") :
    computeBalances s ⟨fd, td, tp, i, g⟩ = computeBalances s ⟨fd, td, tp, i, ""⟩ ∧
    ∃ v : Int, computeBalances s ⟨fd, td, tp, i, g⟩ = [(i, v)] := by
  constructor
  · rw [computeBalances_itemId s ⟨fd, td, tp, i, g⟩ hi,
      computeBalances_itemId s ⟨fd, td, tp, i, ""⟩ hi]
    rfl
  · exact ⟨_, computeBalances_itemId s ⟨fd, td, tp, i, g⟩ hi⟩

/-- C5: with parseable bounds and a parseable permission date, the
date-range filter of `computeBalances` is inclusive: a posted
permission dated exactly `fromDate` or exactly `toDate` survives,
while one dated one day before `fromDate` or one day after `toDate`
is filtered out. -/
theorem dateRange_inclusive (s : Store) (f : Filters) (p : Perm)
    (fv tv sv : Nat)
    (hf : parseDate f.fromDate = some fv) (ht : parseDate f.toDate = some tv)
    (hp : parseDate p.date = some sv)
    (hmem : p ∈ s.permissions) (hposted : p.posted = true)
    (htype : f.filterPermType = "" ∨ p.type = f.filterPermType) :
    (sv = fv → fv ≤ tv → p ∈ survivors s f) ∧
    (sv = tv → fv ≤ tv → p ∈ survivors s f) ∧
    (sv + 1 = fv → p ∉ survivors s f) ∧
    (sv = tv + 1 → p ∉ survivors s f) := by
  have htypeb : (f.filterPermType == "" || p.type == f.filterPermType) = true := by
    rcases htype with h | h <;> simp [h]
  have hinc : fv ≤ sv → sv ≤ tv → p ∈ survivors s f := by
    intro h1 h2
    apply List.mem_filter.mpr
    refine ⟨List.mem_filter.mpr ⟨hmem, hposted⟩, ?_⟩
    rw [permFilter, hp, hf, ht, htypeb]
    simp [jsDateLt, jsDateGt, Nat.not_lt.mpr h1, Nat.not_lt.mpr h2]
  refine ⟨?_, ?_, ?_, ?_⟩
  · intro h1 h2; subst h1; exact hinc le_rfl h2
  · intro h1 h2; subst h1; exact hinc h2 le_rfl
  · intro h1 hc
    have hfil := (List.mem_filter.mp hc).2
    have hfne : (f.fromDate == "") = false := by
      by_cases hh : f.fromDate = ""
      · rw [hh] at hf; exact absurd hf (by simp [parseDate])
      · simp [hh]
    rw [permFilter, hp, hf, ht, htypeb, hfne] at hfil
    have hlt : sv < fv := by omega
    simp [jsDateLt, hlt] at hfil
  · intro h1 hc
    have hfil := (List.mem_filter.mp hc).2
    have htne : (f.toDate == "") = false := by
      by_cases hh : f.toDate = ""
      · rw [hh] at ht; exact absurd ht (by simp [parseDate])
      · simp [hh]
    rw [permFilter, hp, hf, ht, htypeb, htne] at hfil
    have hlt : tv < sv := by omega
    simp [jsDateLt, jsDateGt, hlt] at hfil

/-- C6: a non-empty date bound that does not parse never raises and
never excludes: every comparison against it is `false`, and
`computeBalances` returns exactly what it returns with that bound
absent. -/
theorem malformed_bound_excludes_nothing (s : Store)
    (fd td tp fi fg : String) :
    (parseDate fd = none →
      (∀ p : Perm, jsDateLt (parseDate p.date) (parseDate fd) = false) ∧
      computeBalances s ⟨fd, td, tp, fi, fg⟩ =
        computeBalances s ⟨"", td, tp, fi, fg⟩) ∧
    (parseDate td = none →
      (∀ p : Perm, jsDateGt (parseDate p.date) (parseDate td) = false) ∧
      computeBalances s ⟨fd, td, tp, fi, fg⟩ =
        computeBalances s ⟨fd, "", tp, fi, fg⟩) := by
  have hltnone : ∀ x : Option Nat, jsDateLt x none = false := by
    intro x; cases x <;> rfl
  have hgtnone : ∀ x : Option Nat, jsDateGt x none = false := by
    intro x; rw [jsDateGt]; cases x <;> rfl
  constructor
  · intro h
    refine ⟨fun p => by rw [h, hltnone], ?_⟩
    have hsurv : survivors s ⟨fd, td, tp, fi, fg⟩ =
        survivors s ⟨"", td, tp, fi, fg⟩ := by
      rw [survivors, survivors]
      apply List.filter_congr
      intro p _
      rw [permFilter, permFilter, h, hltnone]
      simp
    simp only [computeBalances, hsurv]
  · intro h
    refine ⟨fun p => by rw [h, hgtnone], ?_⟩
    have hsurv : survivors s ⟨fd, td, tp, fi, fg⟩ =
        survivors s ⟨fd, "", tp, fi, fg⟩ := by
      rw [survivors, survivors]
      apply List.filter_congr
      intro p _
      rw [permFilter, permFilter, h, hgtnone]
      simp
    simp only [computeBalances, hsurv]

/-- C3: deleting an item does not change the contribution of posted
permission lines that reference it: the unfiltered `computeBalances`
still has an entry for the removed id, with the same value as before
the deletion. -/
theorem removeItem_preserves_balances (s : Store) (i : String)
    (h : s.permissions.any
      (fun p => p.posted && p.lines.any (fun l => l.itemId == i)) = true) :
    hasKey (computeBalances (removeItem s i) noFilters) i = true ∧
    getVal (computeBalances (removeItem s i) noFilters) i =
      getVal (computeBalances s noFilters) i := by
  have hany : (s.permissions.filter (fun p => p.posted)).any
      (fun p => p.lines.any (fun l => l.itemId == i)) = true := by
    rcases List.any_eq_true.mp h with ⟨p, hp, hpp⟩
    rcases Bool.and_eq_true_iff.mp hpp with ⟨h1, h2⟩
    exact List.any_eq_true.mpr ⟨p, List.mem_filter.mpr ⟨hp, h1⟩, h2⟩
  have hcb1 : computeBalances (removeItem s i) noFilters =
      (s.permissions.filter (fun p => p.posted)).foldl applyPerm
        (initBalances ((removeItem s i).items)) := by
    rw [computeBalances_noFilters_eq _ _ rfl rfl,
      survivors_noFilters _ _ rfl rfl rfl]
    rfl
  have hcb2 : computeBalances s noFilters =
      (s.permissions.filter (fun p => p.posted)).foldl applyPerm
        (initBalances s.items) := by
    rw [computeBalances_noFilters_eq _ _ rfl rfl,
      survivors_noFilters _ _ rfl rfl rfl]
  have hk1 : hasKey ((s.permissions.filter (fun p => p.posted)).foldl applyPerm
      (initBalances ((removeItem s i).items))) i = true := by
    rw [hasKey_foldl_perms, hany]; simp
  have hk2 : hasKey ((s.permissions.filter (fun p => p.posted)).foldl applyPerm
      (initBalances s.items)) i = true := by
    rw [hasKey_foldl_perms, hany]; simp
  refine ⟨by rw [hcb1]; exact hk1, ?_⟩
  rw [hcb1, hcb2, getVal_of_hasKey _ _ hk1, getVal_of_hasKey _ _ hk2,
    valueAt_foldl_perms, valueAt_foldl_perms, valueAt_initBalances,
    valueAt_initBalances]

/-! ### Lemmas about the stable sort of `getItemCard` -/

theorem mem_insertPerm (a x : Perm) (l : List Perm) :
    x ∈ insertPerm a l ↔ x = a ∨ x ∈ l := by
  induction l with
  | nil => simp [insertPerm]
  | cons b bs ih =>
    rw [insertPerm]
    by_cases h : permLe a b = true
    · rw [if_pos h]; simp
    · rw [if_neg h]
      simp [ih]
      tauto

theorem insertPerm_perm (a : Perm) (l : List Perm) :
    (insertPerm a l).Perm (a :: l) := by
  induction l with
  | nil => simp [insertPerm]
  | cons b bs ih =>
    rw [insertPerm]
    by_cases h : permLe a b = true
    · rw [if_pos h]
    · rw [if_neg h]
      exact List.Perm.trans (List.Perm.cons b ih) (List.Perm.swap a b bs)

theorem sortPerms_perm (l : List Perm) : (sortPerms l).Perm l := by
  induction l with
  | nil => simp [sortPerms]
  | cons a as ih =>
    rw [sortPerms]
    exact List.Perm.trans (insertPerm_perm a (sortPerms as)) (List.Perm.cons a ih)

theorem permLe_eq_of_isSome (a b : Perm)
    (ha : (sortKey a).isSome = true) (hb : (sortKey b).isSome = true) :
    permLe a b = decide ((sortKey a).getD 0 ≤ (sortKey b).getD 0) := by
  rcases Option.isSome_iff_exists.mp ha with ⟨x, hx⟩
  rcases Option.isSome_iff_exists.mp hb with ⟨y, hy⟩
  rw [permLe, hx, hy]
  simp [hx, hy]

theorem pairwise_insertPerm (a : Perm) (l : List Perm)
    (ha : (sortKey a).isSome = true) (hl : ∀ x ∈ l, (sortKey x).isSome = true)
    (h : l.Pairwise fun x y => (sortKey x).getD 0 ≤ (sortKey y).getD 0) :
    (insertPerm a l).Pairwise
      fun x y => (sortKey x).getD 0 ≤ (sortKey y).getD 0 := by
  induction l with
  | nil => simp [insertPerm]
  | cons b bs ih =>
    rw [insertPerm]
    rcases List.pairwise_cons.mp h with ⟨hb, hbs⟩
    by_cases hle : permLe a b = true
    · rw [if_pos hle]
      have hab : (sortKey a).getD 0 ≤ (sortKey b).getD 0 := by
        rw [permLe_eq_of_isSome a b ha (hl b (by simp))] at hle
        exact of_decide_eq_true hle
      apply List.Pairwise.cons
      · intro x hx
        rcases List.mem_cons.mp hx with hx | hx
        · subst hx; exact hab
        · exact le_trans hab (hb x hx)
      · exact h
    · rw [if_neg hle]
      have hba : (sortKey b).getD 0 ≤ (sortKey a).getD 0 := by
        rw [permLe_eq_of_isSome a b ha (hl b (by simp))] at hle
        have hnot : ¬ (sortKey a).getD 0 ≤ (sortKey b).getD 0 := by
          intro hc
          exact hle (decide_eq_true hc)
        omega
      apply List.Pairwise.cons
      · intro x hx
        rcases (mem_insertPerm a x bs).mp hx with hx | hx
        · subst hx; exact hba
        · exact hb x hx
      · exact ih (fun x hx => hl x (by simp [hx])) hbs

theorem pairwise_sortPerms (l : List Perm)
    (hl : ∀ x ∈ l, (sortKey x).isSome = true) :
    (sortPerms l).Pairwise
      fun x y => (sortKey x).getD 0 ≤ (sortKey y).getD 0 := by
  induction l with
  | nil => simp [sortPerms]
  | cons a as ih =>
    rw [sortPerms]
    apply pairwise_insertPerm
    · exact hl a (by simp)
    · intro x hx
      exact hl x (by simp [(sortPerms_perm as).mem_iff.mp hx])
    · exact ih (fun x hx => hl x (by simp [hx]))

theorem filter_insertPerm (a : Perm) (l : List Perm) (k : Nat) :
    (insertPerm a l).filter (fun p => sortKey p == some k) =
      (a :: l).filter (fun p => sortKey p == some k) := by
  induction l with
  | nil => rfl
  | cons b bs ih =>
    rw [insertPerm]
    by_cases hle : permLe a b = true
    · rw [if_pos hle]
    · rw [if_neg hle]
      by_cases hb : sortKey b = some k
      · have hna : ¬ sortKey a = some k := by
          intro hak
          apply hle
          rw [permLe, hak, hb]
          simp
        have hbt : (sortKey b == some k) = true := by simp [hb]
        have hat : (sortKey a == some k) = false := by simp [hna]
        rw [List.filter_cons, List.filter_cons, List.filter_cons, hbt, hat]
        simp only [if_true, Bool.false_eq_true, if_false]
        rw [ih, List.filter_cons, hat]
        simp only [Bool.false_eq_true, if_false]
      · have hbf : (sortKey b == some k) = false := by simp [hb]
        rw [List.filter_cons, List.filter_cons, List.filter_cons, hbf]
        simp only [Bool.false_eq_true, if_false]
        rw [ih, List.filter_cons]

theorem filter_sortPerms (l : List Perm) (k : Nat) :
    (sortPerms l).filter (fun p => sortKey p == some k) =
      l.filter (fun p => sortKey p == some k) := by
  induction l with
  | nil => rfl
  | cons a as ih =>
    rw [sortPerms, filter_insertPerm, List.filter_cons, List.filter_cons, ih]

theorem runBalance_fst_toTx (ts : List TxRec) : ∀ b : Int,
    ((runBalance b ts).1).map (fun r => r.toTxRec) = ts := by
  induction ts with
  | nil => intro b; rfl
  | cons t ts ih =>
    intro b
    rw [runBalance]
    simp [ih]

theorem pairwise_of_forall_mem {α : Type} {R : α → α → Prop} :
    ∀ (l : List α), (∀ a ∈ l, ∀ b ∈ l, R a b) → l.Pairwise R := by
  intro l
  induction l with
  | nil => intro _; exact List.Pairwise.nil
  | cons a as ih =>
    intro h
    apply List.Pairwise.cons
    · intro b hb
      exact h a (by simp) b (by simp [hb])
    · exact ih (fun x hx y hy => h x (by simp [hx]) y (by simp [hy]))

theorem mem_permTxs_date (i : String) (p : Perm) (t : TxRec)
    (h : t ∈ permTxs i p) : t.date = effDate p := by
  rw [permTxs] at h
  rcases List.mem_map.mp h with ⟨l, _, hl⟩
  rw [← hl, txOf]

theorem jsDateLt_self_eq_false (x : Option Nat) : jsDateLt x x = false := by
  cases x <;> simp [jsDateLt]

theorem pairwise_txs (i : String) : ∀ (ps : List Perm),
    (ps.Pairwise fun x y => (sortKey x).getD 0 ≤ (sortKey y).getD 0) →
    (∀ p ∈ ps, (sortKey p).isSome = true) →
    (ps.flatMap (permTxs i)).Pairwise
      (fun t1 t2 => jsDateLt (parseDate t2.date) (parseDate t1.date) = false) := by
  intro ps
  induction ps with
  | nil => intro _ _; simp
  | cons p ps ih =>
    intro h hs
    rw [List.flatMap_cons]
    apply List.pairwise_append.mpr
    refine ⟨?_, ?_, ?_⟩
    · apply pairwise_of_forall_mem
      intro t1 h1 t2 h2
      rw [mem_permTxs_date i p t1 h1, mem_permTxs_date i p t2 h2]
      exact jsDateLt_self_eq_false _
    · exact ih (List.pairwise_cons.mp h).2 (fun x hx => hs x (by simp [hx]))
    · intro t1 h1 t2 h2
      rcases List.mem_flatMap.mp h2 with ⟨q, hq, ht2⟩
      rw [mem_permTxs_date i p t1 h1, mem_permTxs_date i q t2 ht2]
      have hp : (sortKey p).isSome = true := hs p (by simp)
      have hq2 : (sortKey q).isSome = true := hs q (by simp [hq])
      rcases Option.isSome_iff_exists.mp hp with ⟨kp, hkp⟩
      rcases Option.isSome_iff_exists.mp hq2 with ⟨kq, hkq⟩
      have hle : kp ≤ kq := by
        have h0 := (List.pairwise_cons.mp h).1 q hq
        rw [hkp, hkq] at h0
        simpa using h0
      show jsDateLt (parseDate (effDate q)) (parseDate (effDate p)) = false
      rw [show parseDate (effDate q) = sortKey q from rfl,
        show parseDate (effDate p) = sortKey p from rfl, hkp, hkq]
      simp [jsDateLt, Nat.not_lt.mpr hle]

/-- C7 (amended): provided every selected permission's effective date
(`date`, falling back to `createdAt` when `date` is empty) parses,
the rows of `getItemCard` are in non-decreasing date order (no row is
strictly later than a subsequent row), and the sort is stable:
permissions with equal sort keys keep their container order. -/
theorem getItemCard_rows_sorted (s : Store) (i : String)
    (h : ∀ p ∈ cardPerms s i, (sortKey p).isSome = true) :
    ((getItemCard s i).rows.Pairwise fun r1 r2 =>
      jsDateLt (parseDate r2.date) (parseDate r1.date) = false) ∧
    (∀ k : Nat, (sortPerms (cardPerms s i)).filter
        (fun p => sortKey p == some k) =
      (cardPerms s i).filter (fun p => sortKey p == some k)) := by
  constructor
  · have hs2 : ∀ p ∈ sortPerms (cardPerms s i), (sortKey p).isSome = true :=
      fun p hp => h p ((sortPerms_perm _).mem_iff.mp hp)
    have htxs := pairwise_txs i (sortPerms (cardPerms s i))
      (pairwise_sortPerms (cardPerms s i) h) hs2
    have hmap := runBalance_fst_toTx
      ((sortPerms (cardPerms s i)).flatMap (permTxs i)) 0
    rw [← hmap] at htxs
    exact List.pairwise_map.mp htxs
  · intro k
    exact filter_sortPerms _ k

theorem runBalance_snd (ts : List TxRec) : ∀ b : Int,
    (runBalance b ts).2 = b + (ts.map (fun t => t.inQ - t.out)).sum := by
  induction ts with
  | nil => intro b; simp [runBalance]
  | cons t ts ih =>
    intro b
    rw [runBalance]
    simp only [List.map_cons, List.sum_cons]
    rw [ih]
    ring

theorem sum_map_flatMap {α β : Type} (l : List α) (f : α → List β) (g : β → Int) :
    ((l.flatMap f).map g).sum = (l.map (fun x => ((f x).map g).sum)).sum := by
  induction l with
  | nil => rfl
  | cons a as ih =>
    rw [List.flatMap_cons, List.map_append, List.sum_append, ih,
      List.map_cons, List.sum_cons]

theorem sum_map_filter {α : Type} (φ : α → Bool) (g : α → Int) (l : List α) :
    ((l.filter φ).map g).sum = (l.map (fun a => if φ a then g a else 0)).sum := by
  induction l with
  | nil => rfl
  | cons a as ih =>
    rw [List.filter_cons]
    by_cases h : φ a
    · rw [if_pos h, List.map_cons, List.sum_cons, ih, List.map_cons,
        List.sum_cons, if_pos h]
    · rw [if_neg h, ih, List.map_cons, List.sum_cons, if_neg h, zero_add]

theorem sum_map_filter_of_vanish {α : Type} (φ : α → Bool) (g : α → Int)
    (l : List α) (h : ∀ x ∈ l, φ x = false → g x = 0) :
    ((l.filter φ).map g).sum = (l.map g).sum := by
  induction l with
  | nil => rfl
  | cons a as ih =>
    rw [List.filter_cons]
    by_cases ha : φ a
    · rw [if_pos ha, List.map_cons, List.sum_cons, List.map_cons, List.sum_cons,
        ih (fun x hx => h x (by simp [hx]))]
    · rw [if_neg ha, List.map_cons, List.sum_cons,
        h a (by simp) (by simpa using ha), zero_add,
        ih (fun x hx => h x (by simp [hx]))]

theorem txsum_eq_permDelta (i : String) (p : Perm)
    (h : p.type ∈ (["إذن إضافة", "إذن تحويل", "إذن خصم معدة", "إذن صرف",
      "إذن ارتجاع"] : List String)) :
    ((permTxs i p).map (fun t => t.inQ - t.out)).sum = permDelta i p := by
  rw [permTxs, permDelta, List.map_map, sum_map_filter]
  apply congrArg
  apply List.map_congr_left
  intro l _
  by_cases hl : l.itemId == i
  · rw [if_pos hl]
    have hli : (l.itemId == i) = true := hl
    simp only [List.mem_cons, List.not_mem_nil, or_false] at h
    rcases h with h | h | h | h | h <;>
      rw [lineDelta, hli, if_pos rfl] <;>
      simp [Function.comp, txOf, isInType, h]
  · have hli : (l.itemId == i) = false := by simpa using hl
    rw [if_neg hl, lineDelta, hli]
    simp

theorem permDelta_eq_zero_of_no_line (i : String) (p : Perm)
    (h : p.lines.any (fun l => l.itemId == i) = false) :
    permDelta i p = 0 := by
  rw [permDelta]
  have hz : ∀ l ∈ p.lines, lineDelta p.type i l = 0 := by
    intro l hl
    have hli : (l.itemId == i) = false := by
      by_cases hc : (l.itemId == i) = true
      · have ha : p.lines.any (fun l => l.itemId == i) = true :=
          List.any_eq_true.mpr ⟨l, hl, hc⟩
        rw [ha] at h
        cases h
      · simpa using hc
    rw [lineDelta, hli]
    simp
  rw [List.map_congr_left hz]
  simp

/-- C2 (amended): when every posted permission holding a line for
item `i` has one of the five known document types, the final running
balance of `getItemCard i` equals the value that
`computeBalances({filterItemId: i})` assigns to `i`. -/
theorem getItemCard_balance_eq_known_types (s : Store) (i : String)
    (hi : i ≠ "")
    (h : ∀ p ∈ s.permissions, p.posted = true →
      (∃ l ∈ p.lines, l.itemId = i) →
      p.type ∈ (["إذن إضافة", "إذن تحويل", "إذن خصم معدة", "إذن صرف",
        "إذن ارتجاع"] : List String)) :
    getVal (computeBalances s ⟨"", "", "", i, ""⟩) i =
      some ((getItemCard s i).balance) := by
  rw [computeBalances_itemId s ⟨"", "", "", i, ""⟩ hi]
  have hval : getVal
      [((⟨"", "", "", i, ""⟩ : Filters).filterItemId,
        valueAt ((survivors s ⟨"", "", "", i, ""⟩).foldl applyPerm
          (initBalances s.items)) (⟨"", "", "", i, ""⟩ : Filters).filterItemId)]
      i = some (valueAt ((survivors s ⟨"", "", "", i, ""⟩).foldl applyPerm
        (initBalances s.items)) i) := by
    rw [getVal_cons]
    simp
  rw [hval]
  apply congrArg
  rw [survivors_noFilters _ _ rfl rfl rfl, valueAt_foldl_perms,
    valueAt_initBalances, zero_add]
  have hbal : (getItemCard s i).balance =
      (((sortPerms (cardPerms s i)).flatMap (permTxs i)).map
        (fun t => t.inQ - t.out)).sum := by
    rw [getItemCard]
    simp only
    rw [runBalance_snd, zero_add]
  rw [hbal, sum_map_flatMap]
  have hperm : ((sortPerms (cardPerms s i)).map
      (fun p => ((permTxs i p).map (fun t => t.inQ - t.out)).sum)).sum =
    ((cardPerms s i).map
      (fun p => ((permTxs i p).map (fun t => t.inQ - t.out)).sum)).sum :=
    List.Perm.sum_eq (List.Perm.map _ (sortPerms_perm _))
  rw [hperm]
  have hcong : ((cardPerms s i).map
      (fun p => ((permTxs i p).map (fun t => t.inQ - t.out)).sum)).sum =
    ((cardPerms s i).map (permDelta i)).sum := by
    apply congrArg
    apply List.map_congr_left
    intro p hp
    rcases List.mem_filter.mp hp with ⟨hp1, hp2⟩
    rcases List.mem_filter.mp hp1 with ⟨hmem, hposted⟩
    apply txsum_eq_permDelta
    apply h p hmem hposted
    rcases List.any_eq_true.mp hp2 with ⟨l, hl, hli⟩
    exact ⟨l, hl, by simpa using hli⟩
  rw [hcong, cardPerms,
    sum_map_filter_of_vanish (fun p => p.lines.any (fun l => l.itemId == i))
      (permDelta i) (s.permissions.filter (fun p => p.posted))
      (fun p _ hno => permDelta_eq_zero_of_no_line i p hno)]

/-- C2 counterexample: in a snapshot whose only posted permission has
the unknown type `"إذن مجهول"` with a line of quantity 5 for `itA`,
the item-card balance is −5 while `computeBalances({filterItemId})`
reports 0, so the two disagree. -/
theorem getItemCard_balance_counterexample :
    ¬ (getVal (computeBalances cexStoreUnknown ⟨"", "", "", "itA", ""⟩) "itA" =
      some ((getItemCard cexStoreUnknown "itA").balance)) := by decide

/-- C10: `getItemCard` classifies a row as inbound only for the
addition and return types; a line of any other type — known or not —
is emitted with `in = 0`, `out = qty` and decreases the running
balance, while `computeBalances` gives a line of an unknown type no
effect at all. -/
theorem getItemCard_unknown_type_outflow :
    (∀ (p : Perm) (l : Line), p.type ≠ "إذن إضافة" → p.type ≠ "إذن ارتجاع" →
      txOf p l = ⟨p.type, 0, l.qty.getD 0, l.desc, p.number, effDate p⟩) ∧
    (∀ (itms : List Item) (whs : List Warehouse) (p : Perm) (l : Line)
      (i : String) (q : Int),
      p.posted = true → p.lines = [l] → l.itemId = i → l.qty = some q →
      p.type ≠ "إذن إضافة" → p.type ≠ "إذن ارتجاع" →
      (getItemCard ⟨itms, whs, [p]⟩ i).rows =
        [⟨⟨p.type, 0, q, l.desc, p.number, effDate p⟩, -q⟩] ∧
      (getItemCard ⟨itms, whs, [p]⟩ i).balance = -q) ∧
    (∀ (itms : List Item) (whs : List Warehouse) (p : Perm) (l : Line)
      (i : String),
      p.posted = true → p.lines = [l] → l.itemId = i →
      p.type ∉ (["إذن إضافة", "إذن تحويل", "إذن خصم معدة", "إذن صرف",
        "إذن ارتجاع"] : List String) →
      getVal (computeBalances ⟨itms, whs, [p]⟩ noFilters) i = some 0) := by
  refine ⟨?_, ?_, ?_⟩
  · intro p l h1 h2
    rw [txOf]
    have : isInType p.type = false := by simp [isInType, h1, h2]
    rw [this]
    simp
  · intro itms whs p l i q hposted hlines hid hq h1 h2
    have hcard : cardPerms ⟨itms, whs, [p]⟩ i = [p] := by
      rw [cardPerms]
      simp [List.filter_cons, hposted, hlines, hid]
    have htx : permTxs i p = [txOf p l] := by
      rw [permTxs, hlines]
      simp [List.filter_cons, hid]
    have htxof : txOf p l = ⟨p.type, 0, q, l.desc, p.number, effDate p⟩ := by
      rw [txOf]
      have : isInType p.type = false := by simp [isInType, h1, h2]
      rw [this]
      simp [hq]
    rw [getItemCard, hcard]
    show ((runBalance 0 (([p]).flatMap (permTxs i))).1 =
        [⟨⟨p.type, 0, q, l.desc, p.number, effDate p⟩, -q⟩]) ∧
      ((runBalance 0 (([p]).flatMap (permTxs i))).2 = -q)
    rw [List.flatMap_cons, List.flatMap_nil, List.append_nil, htx, htxof,
      runBalance, runBalance]
    constructor
    · simp
    · simp
  · intro itms whs p l i hposted hlines hid hunk
    simp only [List.mem_cons, List.not_mem_nil, or_false] at hunk
    push_neg at hunk
    obtain ⟨n1, n2, n3, n4, n5⟩ := hunk
    have hsurv : survivors ⟨itms, whs, [p]⟩ noFilters = [p] := by
      rw [survivors_noFilters _ _ rfl rfl rfl]
      simp [List.filter_cons, hposted]
    have hcb : computeBalances ⟨itms, whs, [p]⟩ noFilters =
        ([p]).foldl applyPerm (initBalances itms) := by
      rw [computeBalances_noFilters_eq _ _ rfl rfl, hsurv]
    have hz : lineDelta p.type i l = 0 := by
      rw [lineDelta]
      have e1 : (p.type == "إذن إضافة") = false := by simp [n1]
      have e2 : (p.type == "إذن تحويل") = false := by simp [n2]
      have e3 : (p.type == "إذن خصم معدة") = false := by simp [n3]
      have e4 : (p.type == "إذن صرف") = false := by simp [n4]
      have e5 : (p.type == "إذن ارتجاع") = false := by simp [n5]
      rw [e1, e2, e3, e4, e5]
      simp
    have hk : hasKey (([p]).foldl applyPerm (initBalances itms)) i = true := by
      rw [hasKey_foldl_perms]
      apply Bool.or_eq_true_iff.mpr
      right
      apply List.any_eq_true.mpr
      refine ⟨p, by simp, ?_⟩
      apply List.any_eq_true.mpr
      exact ⟨l, by simp [hlines], by simp [hid]⟩
    have hv : valueAt (([p]).foldl applyPerm (initBalances itms)) i = 0 := by
      rw [valueAt_foldl_perms, valueAt_initBalances]
      simp only [List.map_cons, List.map_nil, List.sum_cons, List.sum_nil]
      rw [permDelta, hlines]
      simp [hz]
    rw [hcb, getVal_of_hasKey _ _ hk, hv]

/-- C8: restoring the backup produced by `exportBackup` always
validates and reproduces the exported snapshot exactly, leaving no
error. -/
theorem backup_roundtrip (current s : Store) :
    importBackupFile current (exportBackup s) = (s, none) := rfl

/-- C9: `importBackupFile` fails with the `InvalidBackup` message and
keeps the current snapshot untouched whenever one of the three
containers is missing, and succeeds (replacing the store with exactly
the payload's containers) only when all three are present. -/
theorem importBackup_validates (current : Store) (d : BackupPayload) :
    ((d.items = none ∨ d.warehouses = none ∨ d.permissions = none) →
      importBackupFile current d = (current, some invalidBackupMsg)) ∧
    ((importBackupFile current d).2 = none →
      ∃ its whs ps, d = ⟨some its, some whs, some ps⟩ ∧
        (importBackupFile current d).1 = ⟨its, whs, ps⟩) := by
  rcases d with ⟨its, whs, ps⟩
  rcases its with _ | its <;> rcases whs with _ | whs <;> rcases ps with _ | ps <;>
    constructor <;>
    first
      | (intro h; rfl)
      | (intro h
         rcases h with h | h | h <;> simp at h)
      | (intro h; exact ⟨its, whs, ps, rfl, rfl⟩)

/-- C7 counterexample: in `cexStoreDates` the unparseable date
`"garbage"` compares as a tie with everything, so the stable sort
leaves the anti-chronological container order `[2024-05-01, garbage,
2024-01-01]` untouched and the emitted rows are not in non-decreasing
date order. -/
theorem getItemCard_rows_sorted_counterexample :
    ¬ ((getItemCard cexStoreDates "itA").rows.Pairwise fun r1 r2 =>
      jsDateLt (parseDate r2.date) (parseDate r1.date) = false) := by decide

/-! ### Closed instances of the hypothesis-bearing theorems -/

theorem computeBalances_sign_rule_witness :
    getVal (computeBalances wStore noFilters) "itA" = some (10 - 3) :=
  (computeBalances_sign_rule.2 [wItemA] [] "itA" 10 3 wPermAdd wPermDisb
    ⟨"itA", "قطعة", some 10, ""⟩ ⟨"itA", "قطعة", some 3, ""⟩
    rfl rfl rfl rfl rfl rfl rfl rfl rfl rfl).1

theorem getItemCard_balance_eq_known_types_witness :
    getVal (computeBalances wStore ⟨"", "", "", "itA", ""⟩) "itA" =
      some ((getItemCard wStore "itA").balance) :=
  getItemCard_balance_eq_known_types wStore "itA" (by decide) (by decide)

theorem removeItem_preserves_balances_witness :
    hasKey (computeBalances (removeItem wStore "itA") noFilters) "itA" = true ∧
    getVal (computeBalances (removeItem wStore "itA") noFilters) "itA" =
      getVal (computeBalances wStore noFilters) "itA" :=
  removeItem_preserves_balances wStore "itA" (by decide)

theorem filterItemId_overrides_filterGroup_witness :
    computeBalances wStore ⟨"", "", "", "itA", "مكتبي"⟩ =
      computeBalances wStore ⟨"", "", "", "itA", ""⟩ :=
  (filterItemId_overrides_filterGroup wStore "" "" "" "itA" "مكتبي"
    (by decide)).1

theorem dateRange_inclusive_witness :
    wPermMar ∈ survivors wStoreMar wFiltersMar :=
  (dateRange_inclusive wStoreMar wFiltersMar wPermMar
    (toSerial 2024 3 10) (toSerial 2024 3 20) (toSerial 2024 3 10)
    (by decide) (by decide) (by decide) (by decide) rfl (Or.inl rfl)).1
    rfl (by decide)

theorem malformed_bound_excludes_nothing_witness :
    computeBalances wStore ⟨"not-a-date", "", "", "", ""⟩ =
      computeBalances wStore ⟨"", "", "", "", ""⟩ :=
  ((malformed_bound_excludes_nothing wStore "not-a-date" "" "" "" "").1
    (by decide)).2

theorem getItemCard_rows_sorted_witness :
    (getItemCard wStoreTwoDates "itA").rows.Pairwise fun r1 r2 =>
      jsDateLt (parseDate r2.date) (parseDate r1.date) = false :=
  (getItemCard_rows_sorted wStoreTwoDates "itA" (by decide)).1

theorem getItemCard_unknown_type_outflow_witness :
    (getItemCard cexStoreUnknown "itA").balance = -5 ∧
    getVal (computeBalances cexStoreUnknown noFilters) "itA" = some 0 :=
  ⟨(getItemCard_unknown_type_outflow.2.1 [wItemA] [] cexPermUnknown
      ⟨"itA", "قطعة", some 5, ""⟩ "itA" 5 rfl rfl rfl rfl (by decide)
      (by decide)).2,
    getItemCard_unknown_type_outflow.2.2 [wItemA] [] cexPermUnknown
      ⟨"itA", "قطعة", some 5, ""⟩ "itA" rfl rfl rfl (by decide)⟩

theorem importBackup_validates_witness :
    importBackupFile wStore ⟨none, some [], some []⟩ =
      (wStore, some invalidBackupMsg) :=
  (importBackup_validates wStore ⟨none, some [], some []⟩).1 (Or.inl rfl)
